import Mathlib

/-!
Shallow embedding of the document-to-risk-assessment pipeline of
`src/backend/main.py` (FastAPI backend of the AI compliance MVP).

Python strings are modelled as `List Char`, Python `int` as `Int`, Python
`float` results as `ℚ` (every number the scorer produces is an exact decimal,
so rationals are a faithful model of the float arithmetic involved:
`score / 100.0` with `score` a small integer, and `min` with `1.0`).
Python byte strings are modelled as `List Nat` (one `Nat` per byte).

All text handled by the claims is ASCII; `Char.toLower` agrees with Python's
`str.lower` on ASCII, which is what `text.lower()` is modelled by.
-/

namespace Compliance

/-- Python's `\s` / `str.strip` whitespace, ASCII range: space, `\t`, `\n`,
`\r`, `\x0b` (vertical tab), `\x0c` (form feed). -/
def isPySpace (c : Char) : Bool :=
  c == ' ' || c == '\t' || c == '\n' || c == '\r' ||
  c == Char.ofNat 11 || c == Char.ofNat 12

/-- The sentence-ending characters of the regex `(?<=[.!?])\s+`
(main.py line 196). -/
def isSentEnd (c : Char) : Bool :=
  c == '.' || c == '!' || c == '?'

/-- `text.lower()` (main.py line 186), ASCII model. -/
def toLowerPy (l : List Char) : List Char :=
  l.map Char.toLower

/-- `needle` is a prefix of `hay` (boolean). -/
def isPrefixB : List Char → List Char → Bool
  | [], _ => true
  | _ :: _, [] => false
  | a :: xs, b :: ys => a == b && isPrefixB xs ys

/-- Python's substring test `needle in hay`: `needle` occurs contiguously in
`hay` (the empty needle occurs in every string). -/
def inStr : List Char → List Char → Bool
  | needle, [] => needle.isEmpty
  | needle, c :: rest => isPrefixB needle (c :: rest) || inStr needle rest

/-- Python `s.strip()` (ASCII whitespace model): drop leading and trailing
whitespace. -/
def pyStrip (l : List Char) : List Char :=
  ((l.dropWhile isPySpace).reverse.dropWhile isPySpace).reverse

/-- Scanner for `re.split(r"(?<=[.!?])\s+", text)`. A split match is a
maximal whitespace run whose preceding character in the original string is
`.`, `!` or `?`. State: `inMatch` is true while consuming such a run (the
field before it has already been emitted); `prev` is the character just
before the scan position (`none` at the start of the string and inside a
run, where the preceding character is whitespace and hence never `[.!?]`);
`acc` is the current field accumulated in reverse. -/
def pySplitAux (inMatch : Bool) (prev : Option Char) (acc : List Char) :
    List Char → List (List Char)
  | [] => [acc.reverse]
  | c :: rest =>
    if inMatch then
      if isPySpace c then
        pySplitAux true none [] rest
      else
        pySplitAux false (some c) [c] rest
    else if (match prev with | some p => isSentEnd p | none => false) && isPySpace c then
      acc.reverse :: pySplitAux true none [] rest
    else
      pySplitAux false (some c) (c :: acc) rest

/-- `re.split(r"(?<=[.!?])\s+", text)` (main.py line 196). -/
def pySplitSentences (text : List Char) : List (List Char) :=
  pySplitAux false none [] text

/-- `[s.strip() for s in re.split(r"(?<=[.!?])\s+", text) if s.strip()]`
(main.py line 196). -/
def sentencesOf (text : List Char) : List (List Char) :=
  ((pySplitSentences text).map pyStrip).filter (fun s => !s.isEmpty)

/-- `RISK_WEIGHTS` (main.py lines 163-174), in dict insertion order, which is
the iteration order of a Python dict. -/
def RISK_WEIGHTS : List (List Char × Int) :=
  [("fraud".data, 20),
   ("bribery".data, 15),
   ("sanctions".data, 25),
   ("bankruptcy".data, 10),
   ("money laundering".data, 30),
   ("litigation".data, 10),
   ("regulatory fines".data, 20),
   ("tax evasion".data, 15),
   ("data breach".data, 20),
   ("antitrust".data, 15)]

/-- The recommendation attached when `flagged` is non-empty
(main.py line 207). -/
def reviewMsg : List Char :=
  "Review the highlighted sentences for potential compliance issues.".data

/-- The recommendation attached when `flagged` is empty (main.py line 209;
the hyphen in the source is U+2011, reproduced here). -/
def continueMsg : List Char :=
  "No high‑severity risk terms detected; continue standard due diligence.".data

/-- Python's builtin `min` on two numbers: the first argument when it is
less than or equal to the second. -/
def pyMin (a b : ℚ) : ℚ :=
  if a ≤ b then a else b

/-- The dictionary returned by `enhanced_risk_analysis` (main.py lines
212-216), with the two entries of its `details` sub-dictionary inlined. -/
structure AnalysisOutput where
  summary : List Char
  risk_score : ℚ
  flagged_terms : List (List Char)
  recommendations : List Char
deriving DecidableEq, Repr

/-- The scanning loop of `enhanced_risk_analysis` (main.py lines 187-192):
`flagged` starts empty, `score` starts at 0, and for each lexicon entry in
order, if the term occurs in the lowercased text the term is appended and its
weight added. Returns (flagged, score). -/
def scanLexicon (lexicon : List (List Char × Int)) (lower : List Char) :
    List (List Char) × Int :=
  lexicon.foldl
    (fun a p => if inStr p.1 lower then (a.1 ++ [p.1], a.2 + p.2) else a)
    ([], 0)

/-- The summary-sentence selection of main.py lines 197-202: every sentence
containing a flagged term, in document order; if none qualifies and a
sentence exists, the first sentence alone. -/
def summarySentences (flagged : List (List Char)) (sentences : List (List Char)) :
    List (List Char) :=
  let ss := sentences.filter (fun s => flagged.any (fun t => inStr t (toLowerPy s)))
  if ss.isEmpty then
    match sentences with
    | [] => []
    | x :: _ => [x]
  else ss

/-- `'. '.join(summary_sentences) + ('.' if summary_sentences else '')`
(main.py line 203). -/
def joinSummary (ss : List (List Char)) : List Char :=
  List.intercalate (". ".data) ss ++ (if ss.isEmpty then [] else ['.'])

/-- `enhanced_risk_analysis` (main.py lines 176-216), generalised over the
lexicon it scans (the source reads the module constant `RISK_WEIGHTS`). -/
def enhancedRiskAnalysisWith (lexicon : List (List Char × Int))
    (text : List Char) : AnalysisOutput :=
  let fs := scanLexicon lexicon (toLowerPy text)
  { summary := joinSummary (summarySentences fs.1 (sentencesOf text))
    risk_score := pyMin ((fs.2 : ℚ) / 100) 1
    flagged_terms := fs.1
    recommendations := if fs.1.isEmpty then continueMsg else reviewMsg }

/-- `enhanced_risk_analysis` exactly as wired in the source: scanning
`RISK_WEIGHTS`. -/
def enhanced_risk_analysis (text : List Char) : AnalysisOutput :=
  enhancedRiskAnalysisWith RISK_WEIGHTS text

/-- The text of the spec's Example 1. -/
def example1Text : List Char :=
  "We detected fraud in the Q3 filings. Revenue grew 5%.".data


/-! ## Byte-level extraction (main.py lines 62-85 and 252-263)

Byte strings are `List Nat` (one entry per byte). `PyPDF2` and its
`PdfReader` are third-party code outside the repository, so they are
modelled as an oracle parameter: `readPdf data` either fails (the
constructor or page iteration raises) or yields the per-page results of
`page.extract_text()`, each of which may itself fail. The `hasPyPDF2` flag
models whether the optional import succeeded (main.py lines 25-31). -/

/-- A UTF-8 continuation byte (`0x80`-`0xBF`). -/
def isContByte (b : Nat) : Bool :=
  0x80 ≤ b && b < 0xC0

/-- Valid range of the first continuation byte of a three-byte sequence,
which depends on the lead byte (excludes overlong forms and surrogates). -/
def isCont3First (lead b : Nat) : Bool :=
  if lead == 0xE0 then 0xA0 ≤ b && b < 0xC0
  else if lead == 0xED then 0x80 ≤ b && b < 0xA0
  else isContByte b

/-- Valid range of the first continuation byte of a four-byte sequence,
which depends on the lead byte (excludes overlong forms and values beyond
U+10FFFF). -/
def isCont4First (lead b : Nat) : Bool :=
  if lead == 0xF0 then 0x90 ≤ b && b < 0xC0
  else if lead == 0xF4 then 0x80 ≤ b && b < 0x90
  else isContByte b

/-- One step of UTF-8 decoding with `errors="ignore"`, with a fuel argument
for structural recursion (each step consumes at least one byte, so fuel equal
to the number of bytes is never exhausted — see `decodeUtf8Ignore`). A valid
sequence yields its code point; otherwise the lead byte is skipped and
scanning resumes at the next byte (a skipped-over continuation byte is never
a valid lead, so this produces the same characters as CPython's
per-error-range skipping). -/
def decodeUtf8Go : Nat → List Nat → List Char
  | 0, _ => []
  | _ + 1, [] => []
  | fuel + 1, b :: rest =>
    if b < 0x80 then
      Char.ofNat b :: decodeUtf8Go fuel rest
    else if 0xC2 ≤ b && b ≤ 0xDF then
      match rest with
      | b2 :: r2 =>
        if isContByte b2 then
          Char.ofNat ((b - 0xC0) * 0x40 + (b2 - 0x80)) :: decodeUtf8Go fuel r2
        else decodeUtf8Go fuel rest
      | [] => decodeUtf8Go fuel rest
    else if 0xE0 ≤ b && b ≤ 0xEF then
      match rest with
      | b2 :: b3 :: r3 =>
        if isCont3First b b2 && isContByte b3 then
          Char.ofNat ((b - 0xE0) * 0x1000 + (b2 - 0x80) * 0x40 + (b3 - 0x80))
            :: decodeUtf8Go fuel r3
        else decodeUtf8Go fuel rest
      | _ => decodeUtf8Go fuel rest
    else if 0xF0 ≤ b && b ≤ 0xF4 then
      match rest with
      | b2 :: b3 :: b4 :: r4 =>
        if isCont4First b b2 && isContByte b3 && isContByte b4 then
          Char.ofNat ((b - 0xF0) * 0x40000 + (b2 - 0x80) * 0x1000
              + (b3 - 0x80) * 0x40 + (b4 - 0x80))
            :: decodeUtf8Go fuel r4
        else decodeUtf8Go fuel rest
      | _ => decodeUtf8Go fuel rest
    else decodeUtf8Go fuel rest

/-- `bytes.decode("utf-8", errors="ignore")` (main.py lines 257 and 263):
decode UTF-8, dropping the bytes of every invalid or truncated sequence. -/
def decodeUtf8Ignore (l : List Nat) : List Char :=
  decodeUtf8Go l.length l

/-- The outcome of calling `PyPDF2.PdfReader` and iterating its pages:
either an exception, or the outcome of `page.extract_text()` for each page
(`page.extract_text() or ""` turns a falsy return into the empty string, so
each page yields either an exception or a string). -/
def PdfOracle : Type :=
  List Nat → Except Unit (List (Except Unit (List Char)))

/-- `page_text = page.extract_text() or ""` under its own `try/except`
(main.py lines 78-81): a page that raises contributes the empty string. -/
def pageTextOrEmpty : Except Unit (List Char) → List Char
  | Except.ok t => t
  | Except.error _ => []

/-- `"\n".join(text)` (main.py line 83). -/
def joinNl (texts : List (List Char)) : List Char :=
  List.intercalate ['\n'] texts

/-- Python `try: body / except Exception: return fallback`, for a body
modelled as a fallible computation. -/
def pyTry (body : Except Unit (List Char)) (fallback : List Char) :
    Except Unit (List Char) :=
  match body with
  | Except.ok s => Except.ok s
  | Except.error _ => Except.ok fallback

/-- `extract_text_from_pdf` (main.py lines 62-85): empty string when PyPDF2
is not installed; otherwise the page texts joined by newlines, under a
`try/except` that turns any reader failure into the empty string. The
`Except` return type records that the function sits at an exception
boundary; `extraction_never_raises` shows it never returns an error. -/
def extract_text_from_pdf (hasPyPDF2 : Bool) (readPdf : PdfOracle)
    (data : List Nat) : Except Unit (List Char) :=
  if !hasPyPDF2 then Except.ok []
  else
    pyTry
      (match readPdf data with
       | Except.error e => Except.error e
       | Except.ok pages => Except.ok (joinNl (pages.map pageTextOrEmpty)))
      []

/-- `b"%PDF"`, the 4-byte magic header tested at main.py line 252. -/
def pdfMagic : List Nat :=
  [0x25, 0x50, 0x44, 0x46]

/-- The text chosen by `analyze` before the fallback (main.py lines
252-259): the PDF extractor when the first four bytes are the magic header,
otherwise the bytes decoded as UTF-8 with invalid sequences ignored (that
decode never raises, so its `try/except` is invisible here). The `.error`
arm is dead code by `extraction_never_raises`. -/
def primaryText (hasPyPDF2 : Bool) (readPdf : PdfOracle) (data : List Nat) :
    List Char :=
  if data.take 4 = pdfMagic then
    match extract_text_from_pdf hasPyPDF2 readPdf data with
    | Except.ok s => s
    | Except.error _ => []
  else decodeUtf8Ignore data

/-- The text handed to `enhanced_risk_analysis` (main.py lines 261-263):
when the chosen path yields the empty string, the first 500 bytes lossily
decoded are substituted. -/
def analyzeText (hasPyPDF2 : Bool) (readPdf : PdfOracle) (data : List Nat) :
    List Char :=
  if (primaryText hasPyPDF2 readPdf data).isEmpty then
    decodeUtf8Ignore (data.take 500)
  else primaryText hasPyPDF2 readPdf data

/-- A `PdfReader` that always raises (e.g. on structurally invalid bytes). -/
def failingPdfReader : PdfOracle :=
  fun _ => Except.error ()


/-! ## Characterisation of the scanning loop -/

theorem scanLexicon_eq (lex : List (List Char × Int)) (lower : List Char) :
    scanLexicon lex lower =
      ((lex.filter fun p => inStr p.1 lower).map Prod.fst,
       ((lex.filter fun p => inStr p.1 lower).map Prod.snd).sum) := by
  have h : ∀ (l : List (List Char × Int)) (acc : List (List Char)) (sc : Int),
      l.foldl (fun a p => if inStr p.1 lower then (a.1 ++ [p.1], a.2 + p.2) else a)
          (acc, sc)
        = (acc ++ (l.filter fun p => inStr p.1 lower).map Prod.fst,
           sc + ((l.filter fun p => inStr p.1 lower).map Prod.snd).sum) := by
    intro l
    induction l with
    | nil => intro acc sc; simp
    | cons p t ih =>
      intro acc sc
      cases hb : inStr p.1 lower with
      | true => simp [hb, ih, List.filter_cons, add_assoc]
      | false => simp [hb, ih, List.filter_cons]
  simpa [scanLexicon] using h lex [] 0

theorem flagged_terms_eq (lex : List (List Char × Int)) (text : List Char) :
    (enhancedRiskAnalysisWith lex text).flagged_terms =
      (lex.filter fun p => inStr p.1 (toLowerPy text)).map Prod.fst := by
  simp [enhancedRiskAnalysisWith, scanLexicon_eq]

theorem risk_score_eq (lex : List (List Char × Int)) (text : List Char) :
    (enhancedRiskAnalysisWith lex text).risk_score =
      pyMin ((((lex.filter fun p => inStr p.1 (toLowerPy text)).map Prod.snd).sum : ℚ)
        / 100) 1 := by
  simp [enhancedRiskAnalysisWith, scanLexicon_eq]

theorem recommendations_eq (lex : List (List Char × Int)) (text : List Char) :
    (enhancedRiskAnalysisWith lex text).recommendations =
      if (enhancedRiskAnalysisWith lex text).flagged_terms.isEmpty
      then continueMsg else reviewMsg := rfl

theorem pyMin_one_pos (a : ℚ) : 0 < pyMin a 1 ↔ 0 < a := by
  rw [pyMin]
  split
  · exact Iff.rfl
  · rename_i h
    have h1 : (1 : ℚ) < a := not_le.1 h
    exact ⟨fun _ => lt_trans zero_lt_one h1, fun _ => zero_lt_one⟩

theorem pyMin_one_eq_zero (a : ℚ) : pyMin a 1 = 0 ↔ a = 0 := by
  rw [pyMin]
  split
  · exact Iff.rfl
  · rename_i h
    have h1 : (1 : ℚ) < a := not_le.1 h
    constructor
    · intro h0
      exact absurd h0 one_ne_zero
    · intro h0
      rw [h0] at h1
      exact absurd h1 (by norm_num)

theorem cast_div_hundred_pos (s : Int) : 0 < (s : ℚ) / 100 ↔ 0 < s := by
  constructor
  · intro h
    have h2 : (0 : ℚ) < (s : ℚ) := by
      have := mul_pos h (show (0 : ℚ) < 100 by norm_num)
      rwa [div_mul_cancel₀] at this
      norm_num
    exact_mod_cast h2
  · intro h
    exact div_pos (by exact_mod_cast h) (by norm_num)

/-! ## Claims -/

/-- C1: for every text, the scorer's total weight is the sum of the weights of
exactly those lexicon entries whose term occurs (case-insensitively, i.e. in
the lowercased text) as a substring — each lexicon entry contributing at most
once — and the returned `risk_score` is `min(total_weight / 100.0, 1.0)`; in
particular a text containing both "bribery" (15) and "antitrust" (15) and no
other lexicon term yields `risk_score = 0.30`. -/
theorem risk_score_is_capped_weight_sum :
    (∀ text : List Char,
        (enhanced_risk_analysis text).risk_score =
          pyMin ((((RISK_WEIGHTS.filter fun p => inStr p.1 (toLowerPy text)).map
            Prod.snd).sum : ℚ) / 100) 1)
    ∧ (enhanced_risk_analysis ("bribery and antitrust".data)).risk_score = 3 / 10 := by
  constructor
  · intro text
    exact risk_score_eq RISK_WEIGHTS text
  · show pyMin
      (((scanLexicon RISK_WEIGHTS (toLowerPy ("bribery and antitrust".data))).2 : ℚ)
        / 100) 1 = 3 / 10
    rw [show (scanLexicon RISK_WEIGHTS (toLowerPy ("bribery and antitrust".data))).2
          = 30 from by decide]
    rw [pyMin, if_pos (by norm_num)]
    norm_num

/-- C2: for every lexicon whose weights are all positive and every text, the
returned `risk_score` lies in the closed interval `[0, 1]`. -/
theorem risk_score_in_unit_interval (lex : List (List Char × Int))
    (text : List Char) (hw : ∀ p ∈ lex, 0 < p.2) :
    0 ≤ (enhancedRiskAnalysisWith lex text).risk_score ∧
    (enhancedRiskAnalysisWith lex text).risk_score ≤ 1 := by
  rw [risk_score_eq]
  have hs : (0 : Int) ≤ ((lex.filter fun p => inStr p.1 (toLowerPy text)).map
      Prod.snd).sum := by
    apply List.sum_nonneg
    intro x hx
    obtain ⟨p, hp, rfl⟩ := List.mem_map.1 hx
    exact le_of_lt (hw p (List.mem_of_mem_filter hp))
  have hq : (0 : ℚ) ≤ (((lex.filter fun p => inStr p.1 (toLowerPy text)).map
      Prod.snd).sum : ℚ) / 100 := by
    apply div_nonneg _ (by norm_num)
    exact_mod_cast hs
  constructor
  · rw [pyMin]
    split
    · exact hq
    · exact zero_le_one
  · rw [pyMin]
    split
    · assumption
    · exact le_refl 1

/-- C2 witness: the interval bounds at the fixed lexicon `RISK_WEIGHTS`
(whose weights are all positive) and a concrete text. -/
theorem risk_score_in_unit_interval_instance :
    0 ≤ (enhancedRiskAnalysisWith RISK_WEIGHTS ("We detected fraud.".data)).risk_score ∧
    (enhancedRiskAnalysisWith RISK_WEIGHTS ("We detected fraud.".data)).risk_score ≤ 1 :=
  risk_score_in_unit_interval RISK_WEIGHTS ("We detected fraud.".data) (by decide)

/-- C3: for every text, `flagged_terms` contains each lexicon term at most
once (it is duplicate-free), is a subsequence of the lexicon's iteration
order, and contains only terms present as substrings of the lowercased
text. -/
theorem flagged_terms_nodup_sublist_present : ∀ text : List Char,
    (enhanced_risk_analysis text).flagged_terms.Nodup ∧
    List.Sublist (enhanced_risk_analysis text).flagged_terms
      (RISK_WEIGHTS.map Prod.fst) ∧
    ∀ t ∈ (enhanced_risk_analysis text).flagged_terms,
      inStr t (toLowerPy text) = true := by
  intro text
  have hsub : List.Sublist (enhanced_risk_analysis text).flagged_terms
      (RISK_WEIGHTS.map Prod.fst) := by
    rw [show enhanced_risk_analysis text = enhancedRiskAnalysisWith RISK_WEIGHTS text
          from rfl, flagged_terms_eq]
    exact List.Sublist.map Prod.fst (List.filter_sublist RISK_WEIGHTS)
  refine ⟨List.Nodup.sublist hsub (by decide), hsub, ?_⟩
  intro t ht
  rw [show enhanced_risk_analysis text = enhancedRiskAnalysisWith RISK_WEIGHTS text
        from rfl, flagged_terms_eq] at ht
  obtain ⟨p, hp, rfl⟩ := List.mem_map.1 ht
  exact (List.mem_filter.1 hp).2

/-- C4 counterexample: on Example 1's text the summary produced by the code is
"We detected fraud in the Q3 filings.." — the selected sentence already ends
in a period and the joiner appends another — which differs from the single
trailing period the claim states. -/
theorem example1_summary_has_double_period :
    (enhanced_risk_analysis example1Text).summary
      = "We detected fraud in the Q3 filings..".data
    ∧ "We detected fraud in the Q3 filings..".data
      ≠ "We detected fraud in the Q3 filings.".data := by
  constructor
  · decide
  · decide

/-- C4 (amended): on Example 1's text the pipeline produces
`flagged_terms = ["fraud"]`, `risk_score = 0.2`, and
`summary = "We detected fraud in the Q3 filings.."` — the first sentence with
a second trailing period appended by the joiner. -/
theorem example1_full_output :
    (enhanced_risk_analysis example1Text).flagged_terms = ["fraud".data]
    ∧ (enhanced_risk_analysis example1Text).risk_score = 1 / 5
    ∧ (enhanced_risk_analysis example1Text).summary
        = "We detected fraud in the Q3 filings..".data := by
  refine ⟨by decide, ?_, by decide⟩
  show pyMin (((scanLexicon RISK_WEIGHTS (toLowerPy example1Text)).2 : ℚ) / 100) 1
      = 1 / 5
  rw [show (scanLexicon RISK_WEIGHTS (toLowerPy example1Text)).2 = 20 from by decide]
  rw [pyMin, if_pos (by norm_num)]
  norm_num

/-- C5 counterexample: "All systems nominal." contains no lexicon term, and
the summary the code produces is "All systems nominal.." — not equal to the
text's first sentence "All systems nominal.", because the joiner appends a
period to a sentence that already carries one. -/
theorem no_match_summary_cex :
    (∀ p ∈ RISK_WEIGHTS,
        inStr p.1 (toLowerPy ("All systems nominal.".data)) = false)
    ∧ (enhanced_risk_analysis ("All systems nominal.".data)).summary
        = "All systems nominal..".data
    ∧ (sentencesOf ("All systems nominal.".data)).headD []
        = "All systems nominal.".data
    ∧ "All systems nominal..".data ≠ "All systems nominal.".data := by
  refine ⟨by decide, by decide, by decide, by decide⟩

/-- C5 (amended): for every text containing none of the lexicon terms, the
scorer returns `risk_score = 0` and `flagged_terms = []`, and the summary is
the text's first sentence with one extra period appended, or the empty string
when the text has no sentence-like units. -/
theorem no_match_output (text : List Char)
    (h : ∀ p ∈ RISK_WEIGHTS, inStr p.1 (toLowerPy text) = false) :
    (enhanced_risk_analysis text).risk_score = 0
    ∧ (enhanced_risk_analysis text).flagged_terms = []
    ∧ (enhanced_risk_analysis text).summary
        = (match sentencesOf text with
           | [] => []
           | s :: _ => s ++ ['.']) := by
  have hfil : RISK_WEIGHTS.filter (fun p => inStr p.1 (toLowerPy text)) = [] := by
    rw [List.filter_eq_nil_iff]
    intro p hp
    simp [h p hp]
  have hflag : (enhanced_risk_analysis text).flagged_terms = [] := by
    rw [show enhanced_risk_analysis text = enhancedRiskAnalysisWith RISK_WEIGHTS text
          from rfl, flagged_terms_eq, hfil]
    rfl
  refine ⟨?_, hflag, ?_⟩
  · rw [show enhanced_risk_analysis text = enhancedRiskAnalysisWith RISK_WEIGHTS text
          from rfl, risk_score_eq, hfil]
    show pyMin (((0 : Int) : ℚ) / 100) 1 = 0
    rw [pyMin, if_pos (by norm_num)]
    norm_num
  · have hsummary : (enhanced_risk_analysis text).summary
        = joinSummary (summarySentences
            (enhanced_risk_analysis text).flagged_terms (sentencesOf text)) := rfl
    rw [hsummary, hflag]
    have hss : summarySentences [] (sentencesOf text)
        = (match sentencesOf text with
           | [] => ([] : List (List Char))
           | s :: _ => [s]) := by
      rw [summarySentences.eq_def]
      simp
    rw [hss]
    cases hs : sentencesOf text with
    | nil => simp [joinSummary, List.intercalate]
    | cons s rest => simp [joinSummary, List.intercalate]

/-- C5 witness: the amended statement at the concrete text
"All systems nominal.", which contains no lexicon term. -/
theorem no_match_output_instance :
    (enhanced_risk_analysis ("All systems nominal.".data)).risk_score = 0
    ∧ (enhanced_risk_analysis ("All systems nominal.".data)).flagged_terms = []
    ∧ (enhanced_risk_analysis ("All systems nominal.".data)).summary
        = (match sentencesOf ("All systems nominal.".data) with
           | [] => []
           | s :: _ => s ++ ['.']) :=
  no_match_output ("All systems nominal.".data) (by decide)

/-- C6 counterexample: the single byte `0xFF` is a non-empty byte sequence
whose primary extraction (generic decode path) yields the empty string, and
whose 500-byte fallback preview is also empty — so the downstream stages
receive empty, not text-bearing, input, contradicting the claimed
guarantee. -/
theorem fallback_preview_can_be_empty :
    ([0xFF] : List Nat) ≠ []
    ∧ primaryText true failingPdfReader [0xFF] = []
    ∧ decodeUtf8Ignore (([0xFF] : List Nat).take 500) = []
    ∧ analyzeText true failingPdfReader [0xFF] = [] := by
  refine ⟨by decide, by decide, by decide, by decide⟩

/-- C6 (amended): for every non-empty byte sequence whose primary extraction
path yields the empty string, the pipeline substitutes the first 500 bytes
lossily decoded; the downstream stages therefore receive non-empty input
exactly when that bounded lossy decode is non-empty (which fails for byte
sequences with no decodable content, such as `[0xFF]`). -/
theorem fallback_uses_bounded_preview (hasPyPDF2 : Bool) (readPdf : PdfOracle)
    (data : List Nat) (_hne : data ≠ [])
    (hempty : primaryText hasPyPDF2 readPdf data = []) :
    analyzeText hasPyPDF2 readPdf data = decodeUtf8Ignore (data.take 500)
    ∧ (analyzeText hasPyPDF2 readPdf data = []
        ↔ decodeUtf8Ignore (data.take 500) = []) := by
  constructor
  · simp [analyzeText, hempty]
  · simp [analyzeText, hempty]

/-- C6 witness: the amended statement at the concrete non-empty byte sequence
`[0xFF]`, whose primary extraction is empty. -/
theorem fallback_uses_bounded_preview_instance :
    analyzeText true failingPdfReader [0xFF]
      = decodeUtf8Ignore (([0xFF] : List Nat).take 500)
    ∧ (analyzeText true failingPdfReader [0xFF] = []
        ↔ decodeUtf8Ignore (([0xFF] : List Nat).take 500) = []) :=
  fallback_uses_bounded_preview true failingPdfReader [0xFF]
    (by decide) (by decide)

/-- C7: for every oracle behaviour (including one that raises on arbitrary
bytes carrying a forged PDF magic header) and every byte sequence, text
extraction returns a string — never an error past its boundary; a missing
PyPDF2 yields the empty string, a reader failure (structurally invalid PDF)
yields the empty string, and when the reader succeeds each undecodable page
contributes the empty string to the newline-joined result. -/
theorem extraction_never_raises (hasPyPDF2 : Bool) (readPdf : PdfOracle)
    (data : List Nat) :
    (∃ s, extract_text_from_pdf hasPyPDF2 readPdf data = Except.ok s)
    ∧ (hasPyPDF2 = false →
        extract_text_from_pdf hasPyPDF2 readPdf data = Except.ok [])
    ∧ (readPdf data = Except.error () →
        extract_text_from_pdf hasPyPDF2 readPdf data = Except.ok [])
    ∧ (∀ pages, hasPyPDF2 = true → readPdf data = Except.ok pages →
        extract_text_from_pdf hasPyPDF2 readPdf data
          = Except.ok (joinNl (pages.map pageTextOrEmpty))) := by
  cases hasPyPDF2 with
  | false =>
    refine ⟨⟨[], rfl⟩, ?_, ?_, ?_⟩
    · intro _
      rfl
    · intro _
      rfl
    · intro pages h _
      exact absurd h (by decide)
  | true =>
    cases hr : readPdf data with
    | error e =>
      have hres : extract_text_from_pdf true readPdf data = Except.ok [] := by
        simp [extract_text_from_pdf, pyTry, hr]
      refine ⟨⟨[], hres⟩, ?_, ?_, ?_⟩
      · intro h
        exact absurd h (by decide)
      · intro _
        exact hres
      · intro pages2 _ hp
        exact absurd hp (by simp)
    | ok pages =>
      have hres : extract_text_from_pdf true readPdf data
          = Except.ok (joinNl (pages.map pageTextOrEmpty)) := by
        simp [extract_text_from_pdf, pyTry, hr]
      refine ⟨⟨joinNl (pages.map pageTextOrEmpty), hres⟩, ?_, ?_, ?_⟩
      · intro h
        exact absurd h (by decide)
      · intro h
        exact absurd h (by simp)
      · intro pages2 _ hp
        injection hp with h2
        subst h2
        exact hres

/-- C8: for every lexicon and text, the assembled recommendation is the
"review flagged sentences" message exactly when `flagged_terms` is non-empty
and the "continue standard due diligence" message exactly when it is empty;
there is no other branch. -/
theorem recommendation_branches_on_flagged (lex : List (List Char × Int))
    (text : List Char) :
    ((enhancedRiskAnalysisWith lex text).recommendations = reviewMsg
      ↔ (enhancedRiskAnalysisWith lex text).flagged_terms ≠ [])
    ∧ ((enhancedRiskAnalysisWith lex text).recommendations = continueMsg
      ↔ (enhancedRiskAnalysisWith lex text).flagged_terms = []) := by
  have h1 : reviewMsg ≠ continueMsg := by decide
  have h2 : continueMsg ≠ reviewMsg := Ne.symm h1
  rw [recommendations_eq]
  cases hf : (enhancedRiskAnalysisWith lex text).flagged_terms with
  | nil => simp [h2]
  | cons a l => simp [h1]

/-- C9: the analysis is deterministic and pure — a function of the (lexicon,
text) input alone, with no clock, randomness or hidden mutable state in its
signature — so two runs on identical inputs return identical summary,
risk_score, flagged_terms and recommendation. -/
theorem analysis_deterministic (lex1 lex2 : List (List Char × Int))
    (t1 t2 : List Char) (hlex : lex1 = lex2) (ht : t1 = t2) :
    enhancedRiskAnalysisWith lex1 t1 = enhancedRiskAnalysisWith lex2 t2 := by
  rw [hlex, ht]

/-- C9 witness: two runs on Example 1's text return identical results. -/
theorem analysis_deterministic_instance :
    enhanced_risk_analysis example1Text = enhanced_risk_analysis example1Text :=
  analysis_deterministic RISK_WEIGHTS RISK_WEIGHTS example1Text example1Text
    rfl rfl

/-- C10: for every text, the risk score is strictly positive exactly when
`flagged_terms` is non-empty (all `RISK_WEIGHTS` weights are positive), and
the score is zero exactly when the "continue standard due diligence"
recommendation is attached — score and recommendation can never disagree. -/
theorem risk_positive_iff_flagged : ∀ text : List Char,
    (0 < (enhanced_risk_analysis text).risk_score
      ↔ (enhanced_risk_analysis text).flagged_terms ≠ [])
    ∧ ((enhanced_risk_analysis text).risk_score = 0
      ↔ (enhanced_risk_analysis text).recommendations = continueMsg) := by
  intro text
  have hW : ∀ p ∈ RISK_WEIGHTS, (0 : Int) < p.2 := by decide
  have hunfold : enhanced_risk_analysis text = enhancedRiskAnalysisWith RISK_WEIGHTS text := rfl
  set F := RISK_WEIGHTS.filter (fun p => inStr p.1 (toLowerPy text)) with hF
  have hpos : ∀ x ∈ F.map Prod.snd, (0 : Int) < x := by
    intro x hx
    obtain ⟨p, hp, rfl⟩ := List.mem_map.1 hx
    exact hW p (List.mem_of_mem_filter hp)
  have hsum_nonneg : (0 : Int) ≤ (F.map Prod.snd).sum :=
    List.sum_nonneg (fun x hx => le_of_lt (hpos x hx))
  have hsum_pos : 0 < (F.map Prod.snd).sum ↔ F ≠ [] := by
    constructor
    · intro h hnil
      rw [hnil] at h
      simp at h
    · intro h
      exact List.sum_pos (F.map Prod.snd) hpos (by simpa using h)
  have hflag : (enhanced_risk_analysis text).flagged_terms = F.map Prod.fst := by
    rw [hunfold, flagged_terms_eq]
  have hrs : (enhanced_risk_analysis text).risk_score
      = pyMin (((F.map Prod.snd).sum : ℚ) / 100) 1 := by
    rw [hunfold, risk_score_eq]
  have hflag_ne : (enhanced_risk_analysis text).flagged_terms ≠ [] ↔ F ≠ [] := by
    rw [hflag]
    simp
  constructor
  · rw [hrs, pyMin_one_pos, cast_div_hundred_pos, hsum_pos, hflag_ne]
  · have hz : (enhanced_risk_analysis text).risk_score = 0 ↔ F = [] := by
      rw [hrs, pyMin_one_eq_zero, div_eq_zero_iff]
      constructor
      · intro h
        rcases h with h | h
        · have hs0 : (F.map Prod.snd).sum = 0 := by exact_mod_cast h
          by_contra hne
          have := hsum_pos.2 hne
          rw [hs0] at this
          exact absurd this (by norm_num)
        · exact absurd h (by norm_num)
      · intro h
        left
        rw [h]
        simp
    rw [hz, hunfold, recommendations_eq, ← hunfold, hflag]
    have h1 : reviewMsg ≠ continueMsg := by decide
    cases hFc : F with
    | nil => simp [Ne.symm h1]
    | cons a l => simp [h1]

end Compliance
